import Mathlib

/-!
Verification of the dgl_chem molecular-property pipeline.

This file gives a shallow embedding of the algorithmic parts of the
repository (SMILES filtering, target standardization, dataset splitting,
the training loop bookkeeping, the prediction metrics and the ensemble
physics layer) and proves or refutes the specification claims about them.

Chemistry itself (RDKit parsing, featurizers) is external to the
repository, so molecule parsing is abstracted as a function
`String → Option Mol`; all filter logic is embedded faithfully from
`src/dglchem/utils/data.py`.
-/

/-- Abstraction of an RDKit molecule: everything `filter_smiles` inspects,
namely `GetNumHeavyAtoms()` and the symbols of `GetAtoms()`. -/
structure Mol where
  numHeavyAtoms : ℕ
  atomSymbols : List String
deriving DecidableEq, Repr

/-- Python `list.index`: index of the first occurrence of `a` in `l`
(0 when absent, which never happens at the call sites below). -/
def pyIndex {α : Type} [DecidableEq α] : List α → α → ℕ
  | [], _ => 0
  | b :: t, a => if b = a then 0 else pyIndex t a + 1

/-- One entry of the filter loop body of `filter_smiles`
(src/dglchem/utils/data.py lines 61-82): an entry is rejected when the
SMILES fails to parse, when the molecule has fewer than two heavy atoms,
or when some atom symbol is outside the allow-list. -/
def smilesRejected (parse : String → Option Mol) (allowed : List String) (s : String) : Bool :=
  match parse s with
  | none => true
  | some m => decide (m.numHeavyAtoms < 2) || m.atomSymbols.any (fun a => !(decide (a ∈ allowed)))

/-- The `indices_to_drop` list built by the loop in `filter_smiles`:
for every element of `smiles` that is rejected, the index appended is
`list(df.smiles).index(element)`, i.e. the index of the FIRST occurrence
of that string.  (The source may append the same index several times —
once per offending atom — but `df.drop` only uses the set of labels, so
the embedding keeps one occurrence per rejected element.) -/
def indices_to_drop (parse : String → Option Mol) (allowed : List String)
    (smiles : List String) : List ℕ :=
  (smiles.filter (fun s => smilesRejected parse allowed s)).map (fun s => pyIndex smiles s)

/-- `df.drop(indices_to_drop)` on a DataFrame with the default RangeIndex:
keep exactly the rows whose positional label is not in `drop`.  The
counter `n` is the label of the first row of `l`. -/
def dropRowsAux {β : Type} (drop : List ℕ) : ℕ → List β → List β
  | _, [] => []
  | n, r :: rs => if n ∈ drop then dropRowsAux drop (n + 1) rs
                  else r :: dropRowsAux drop (n + 1) rs

/-- Embeds `filter_smiles` from src/dglchem/utils/data.py (lines 32-87):
build the (smiles, target) rows, collect `indices_to_drop` over the raw
smiles list, drop those row labels, and return the surviving smiles and
targets as two lists. -/
def filter_smiles {α : Type} (parse : String → Option Mol) (allowed : List String)
    (smiles : List String) (target : List α) : List String × List α :=
  let rows := smiles.zip target
  let kept := dropRowsAux (indices_to_drop parse allowed smiles) 0 rows
  (kept.map Prod.fst, kept.map Prod.snd)

/-- Written from the specification words for claim C1: the output is the
index-aligned subsequence of (smiles, target) pairs consisting exactly of
the entries that pass all three checks. -/
def filter_smiles_claim {α : Type} (parse : String → Option Mol) (allowed : List String)
    (smiles : List String) (target : List α) : List String × List α :=
  let kept := (smiles.zip target).filter (fun p => !(smilesRejected parse allowed p.1))
  (kept.map Prod.fst, kept.map Prod.snd)

/-- A concrete parsing oracle used for counterexamples and witnesses:
CC and CO are two-heavy-atom molecules over allowed symbols, O is a
single-heavy-atom molecule, C[Po] contains the disallowed symbol Po,
and every other string fails to parse. -/
def parseEx : String → Option Mol := fun s =>
  if s = "CC" then some ⟨2, ["C", "C"]⟩
  else if s = "CO" then some ⟨2, ["C", "O"]⟩
  else if s = "O" then some ⟨1, ["O"]⟩
  else if s = "C[Po]" then some ⟨2, ["C", "Po"]⟩
  else none

/-- The default allow-list of `filter_smiles`. -/
def allowedDefault : List String :=
  ["B", "C", "N", "O", "F", "Si", "P", "S", "Cl", "As", "Se", "Br", "Te", "I", "At"]

/-- Python exceptions that the embedded fragments can raise. -/
inductive PyError where
  | assertionError (msg : String)
  | nameError (missing : String)
  | keyError (key : String)
deriving DecidableEq, Repr

/-- The keys of the `split_func` dictionary in `split_data`
(src/dglchem/utils/data.py lines 164-170). -/
def split_func_keys : List String :=
  ["consecutive", "random", "molecular_weight", "scaffold", "stratified"]

/-- Embeds `split_data` from src/dglchem/utils/data.py (lines 162-179).
The named strategies delegate to external dgllife splitter classes,
abstracted here as `ext` (their `train_val_test_split` returns a
(train, validation, test) triple); an unknown name is a dictionary
KeyError.  In the custom branch the assert condition
`custom_split is not None and len(custom_split) == len(self.data)`
evaluates left to right: with `custom_split` absent the assert fails
(AssertionError), and otherwise evaluating `self.data` raises NameError
because `self` is not bound in this module-level function — so the
custom branch never reaches its return statement (whose expression
would in any case slice the label array itself, not the dataset). -/
def split_data {α : Type} (ext : String → List α → List ℚ → List α × List α × List α)
    (data : List α) (split_type : String) (split_frac : List ℚ)
    (custom_split : Option (List ℤ)) : Except PyError (List α × List α × List α) :=
  if split_type = "custom" then
    match custom_split with
    | none => Except.error (PyError.assertionError
        "The custom split has to match the length of the filtered dataset.")
    | some _ => Except.error (PyError.nameError "self")
  else if split_type ∈ split_func_keys then
    Except.ok (ext split_type data split_frac)
  else
    Except.error (PyError.keyError split_type)

/-- Written from the specification words for claim C4: the elements of
`data` whose partition label equals `v`. -/
def selectByLabel {α : Type} (data : List α) (labels : List ℤ) (v : ℤ) : List α :=
  ((data.zip labels).filter (fun p => decide (p.2 = v))).map Prod.fst

/-- The attributes of a `MakeGraphDataSet` object that its `__init__`
sets (src/dglchem/utils/data.py lines 360-383). -/
structure MGDS (α : Type) where
  data : List α
  split_type : String
  split_frac : List ℚ
  custom_split : Option (List ℤ)
  train : Option (List α)
  test : Option (List α)
  val : Option (List α)
deriving DecidableEq, Repr

/-- Embeds `MakeGraphDataSet.__init__` after the parent constructor has
produced `self.data` (the graph list): apply the defaults
(`split_type = random`, `split_frac = [0.8, 0.1, 0.1]`), run the assert
`assert np.sum(self.split_frac), 'Split fractions should add to 1.'` —
whose condition is merely the truthiness of the sum, i.e. it fails
exactly when the sum is 0 — and, when `split` is set, bind the triple
returned by `split_data` to the attributes `train`, `test`, `val` in
that positional order. -/
def makeGraphDataSet_init {α : Type}
    (ext : String → List α → List ℚ → List α × List α × List α)
    (data : List α) (split_type? : Option String) (split_frac? : Option (List ℚ))
    (custom_split : Option (List ℤ)) (split : Bool) : Except PyError (MGDS α) :=
  let st := split_type?.getD "random"
  let sf := split_frac?.getD [8/10, 1/10, 1/10]
  if sf.sum = 0 then
    Except.error (PyError.assertionError "Split fractions should add to 1.")
  else if split then
    match split_data ext data st sf custom_split with
    | Except.error e => Except.error e
    | Except.ok (t1, t2, t3) =>
      Except.ok ⟨data, st, sf, custom_split, some t1, some t2, some t3⟩
  else
    Except.ok ⟨data, st, sf, custom_split, none, none, none⟩

/-- Embeds the `mre` case of `pred_metric`
(src/grape/utils/model_train_test.py line 233):
`np.sum((target - prediction) / target) * 100`, elementwise over two
arrays of common length — note there is no division by N. -/
def pred_metric_mre (prediction target : List ℚ) : ℚ :=
  ((target.zip prediction).map (fun p => (p.1 - p.2) / p.1)).sum * 100

/-- Written from the claim (and the docstring of `pred_metric`) for C8:
the Mean Relative Error (1/N) * Σ (y i - f i) / y i * 100. -/
def mre_claim (prediction target : List ℚ) : ℚ :=
  (((target.zip prediction).map (fun p => (p.1 - p.2) / p.1)).sum / (target.length : ℚ)) * 100

/-- `np.mean` of a list of per-batch losses. -/
def listMean (l : List ℚ) : ℚ := l.sum / (l.length : ℚ)

/-- The comparison `loss_val < loss_cut` in `train_model`; `none` stands
for the initial `loss_cut = float(inf)`, which every rational is below. -/
def improves (best : Option ℚ) (lv : ℚ) : Bool :=
  match best with
  | none => true
  | some b => decide (lv < b)

/-- Embeds the epoch loop of `train_model`
(src/grape/utils/model_train_test.py lines 70-109).  The models, the
optimizer and the data loaders are external, so the per-batch training
and validation losses of epoch `i` are abstracted as the lists
`trainB i` and `valB i`.  Arguments: remaining epochs `r`, current epoch
index `i`, the running `loss_cut` and non-improvement `counter`, and the
accumulated `train_loss` and `val_loss` lists.  Each iteration appends
the mean train and validation batch loss, updates `loss_cut`/`counter`,
and breaks when `counter == patience and early_stopping`. -/
def train_model_loop (trainB valB : ℕ → List ℚ) (early_stopping : Bool) (patience : ℕ) :
    ℕ → ℕ → Option ℚ → ℕ → List ℚ → List ℚ → List ℚ × List ℚ
  | 0, _, _, _, tl, vl => (tl, vl)
  | r + 1, i, best, counter, tl, vl =>
    let lt := listMean (trainB i)
    let lv := listMean (valB i)
    let tl2 := tl ++ [lt]
    let vl2 := vl ++ [lv]
    let best2 := if improves best lv then some lv else best
    let counter2 := if improves best lv then 0 else counter + 1
    if counter2 = patience ∧ early_stopping = true then (tl2, vl2)
    else train_model_loop trainB valB early_stopping patience r (i + 1) best2 counter2 tl2 vl2

/-- Embeds `train_model` (src/grape/utils/model_train_test.py lines
18-111): run up to `epochs` epochs starting from an infinite best loss,
a zero counter and empty loss lists, and return the two loss lists. -/
def train_model (trainB valB : ℕ → List ℚ) (epochs patience : ℕ)
    (early_stopping : Bool) : List ℚ × List ℚ :=
  train_model_loop trainB valB early_stopping patience epochs 0 none 0 [] []

/-- Written from the claim for C2: the minimum validation loss seen over
epochs `0, …, k-1` (`none` before any epoch ran). -/
def bestBefore (valB : ℕ → List ℚ) : ℕ → Option ℚ
  | 0 => none
  | k + 1 =>
    match bestBefore valB k with
    | none => some (listMean (valB k))
    | some b => some (min b (listMean (valB k)))

/-- Written from the claim for C2: the consecutive-non-improvement
counter after epoch `k` — it resets to zero when epoch `k`'s validation
loss is strictly below the best seen and increments otherwise. -/
def counterAfter (valB : ℕ → List ℚ) : ℕ → ℕ
  | 0 => if improves (bestBefore valB 0) (listMean (valB 0)) then 0 else 0 + 1
  | k + 1 =>
    if improves (bestBefore valB (k + 1)) (listMean (valB (k + 1))) then 0
    else counterAfter valB k + 1

/-- The counter value entering epoch `k` (0 before the first epoch). -/
def counterBefore (valB : ℕ → List ℚ) : ℕ → ℕ
  | 0 => 0
  | k + 1 => counterAfter valB k

/-- The first epoch index `k < n` at which the counter reaches the
patience threshold, if any. -/
def firstStop (valB : ℕ → List ℚ) (patience : ℕ) : ℕ → Option ℕ
  | 0 => none
  | n + 1 =>
    match firstStop valB patience n with
    | some k => some k
    | none => if counterAfter valB n = patience then some n else none

/-- Written from the claim for C2: the number of executed epochs — all
`epochs` of them, unless early stopping is on and the counter reaches
`patience` at the end of some epoch `k < epochs`, in which case epochs
`0, …, k` execute. -/
def specNumEpochs (valB : ℕ → List ℚ) (early_stopping : Bool) (patience epochs : ℕ) : ℕ :=
  if early_stopping then
    match firstStop valB patience epochs with
    | some k => k + 1
    | none => epochs
  else epochs

/-- `torch.sign`: -1, 0 or 1 according to the sign of the input. -/
noncomputable def pySign (x : ℝ) : ℝ := if x < 0 then -1 else if 0 < x then 1 else 0

/-- `torch.clamp(x, min=lo, max=hi)`. -/
noncomputable def pyClamp (x lo hi : ℝ) : ℝ := min (max x lo) hi

/-- The epsilon `1e-7` of `CpLayer.forward`. -/
noncomputable def cpEpsilon : ℝ := 1e-7

/-- The shifted temperature `T = T.unsqueeze(1) + epsilon` of
`CpLayer.forward` (the unsqueeze only reshapes; the layer is modelled
per scalar entry). -/
noncomputable def shiftedT (T : ℝ) : ℝ := T + cpEpsilon

/-- `D_over_T = torch.clamp(D / T, min=-20, max=20)` (with `T` already
shifted by epsilon); the same expression gives `F_over_T`. -/
noncomputable def d_over_t (D T : ℝ) : ℝ := pyClamp (D / shiftedT T) (-20) 20

/-- `safe_sinh` of `CpLayer.forward`
(src/src/grape_chem/models/coupled_ensemble_module.py lines 54-59). -/
noncomputable def safe_sinh (x : ℝ) : ℝ :=
  if |x| ≤ 20 then Real.sinh x else pySign x * (Real.exp (min |x| 88) / 2)

/-- `safe_cosh` of `CpLayer.forward` (lines 61-66). -/
noncomputable def safe_cosh (x : ℝ) : ℝ :=
  if |x| ≤ 20 then Real.cosh x else Real.exp (min |x| 88) / 2

/-- `sinh_term = safe_sinh(D_over_T) + epsilon`. -/
noncomputable def sinh_term (D T : ℝ) : ℝ := safe_sinh (d_over_t D T) + cpEpsilon

/-- `cosh_term = safe_cosh(F_over_T) + epsilon`. -/
noncomputable def cosh_term (F T : ℝ) : ℝ := safe_cosh (d_over_t F T) + cpEpsilon

/-- Embeds `CpLayer.forward`
(src/src/grape_chem/models/coupled_ensemble_module.py lines 45-76):
`Cp = B + C * (D_over_T / sinh_term) ** 2 + E * (F_over_T / cosh_term) ** 2`. -/
noncomputable def cpLayer_forward (B C D E F T : ℝ) : ℝ :=
  B + C * ((d_over_t D T / sinh_term D T) ^ 2) + E * ((d_over_t F T / cosh_term F T) ^ 2)

/-- Written from the claim for C3: sinh with the overflow-safe
replacement `sign(x) * exp(min(|x|, 88)) / 2` whenever `|x| > 20`. -/
noncomputable def claimSinh (x : ℝ) : ℝ :=
  if 20 < |x| then pySign x * (Real.exp (min |x| 88) / 2) else Real.sinh x

/-- Written from the claim for C3: cosh with the overflow-safe
replacement `exp(min(|x|, 88)) / 2` whenever `|x| > 20`. -/
noncomputable def claimCosh (x : ℝ) : ℝ :=
  if 20 < |x| then Real.exp (min |x| 88) / 2 else Real.cosh x

/-- Written from the claim for C3: the closed-form expression
`B + C * (u / (sinh(u) + eps)) ^ 2 + E * (v / (cosh(v) + eps)) ^ 2`
with `eps = 1e-7`, `u = clamp(D / (T + eps), -20, 20)`,
`v = clamp(F / (T + eps), -20, 20)`, and sinh/cosh replaced by their
overflow-safe versions when the magnitude of the argument exceeds 20. -/
noncomputable def cpClaimFormula (B C D E F T : ℝ) : ℝ :=
  let eps : ℝ := 1e-7
  let u := pyClamp (D / (T + eps)) (-20) 20
  let v := pyClamp (F / (T + eps)) (-20) 20
  B + C * ((u / (claimSinh u + eps)) ^ 2) + E * ((v / (claimCosh v + eps)) ^ 2)

/-- Embeds `GroupGAT_Ensemble.forward`
(src/src/grape_chem/models/coupled_ensemble_module.py lines 28-39): the
five sub-models and the global-features lookup are abstracted as
functions of the input data; their outputs A, B, C, D, E are passed in
that order, together with T, to `CpLayer.forward`. -/
noncomputable def groupGAT_Ensemble_forward {γ : Type} (mA mB mC mD mE : γ → ℝ) (globalT : γ → ℝ)
    (d : γ) : ℝ :=
  cpLayer_forward (mA d) (mB d) (mC d) (mD d) (mE d) (globalT d)

/-- `np.mean` of a list of reals. -/
noncomputable def listMeanR (l : List ℝ) : ℝ := l.sum / (l.length : ℝ)

/-- Population variance, the square of `np.std` (ddof = 0). -/
noncomputable def listVarR (l : List ℝ) : ℝ := ((l.map (fun x => (x - listMeanR l) ^ 2)).sum) / (l.length : ℝ)

/-- `np.std`: the square root of the population variance. -/
noncomputable def listStdR (l : List ℝ) : ℝ := Real.sqrt (listVarR l)

/-- The standardization step of `DataSet.__init__`
(src/dglchem/utils/data.py lines 241-243):
`self.target = (target_ - np.mean(target_)) / np.std(target_)`. -/
noncomputable def standardize (target : List ℝ) : List ℝ :=
  target.map (fun t => (t - listMeanR target) / listStdR target)

/-- Embeds the target pipeline of `DataSet.__init__` when constructed
from smiles and targets (not from a pickle file): the targets are first
filtered alongside the smiles and then standardized; `construct_dataset`
then attaches the i-th of these values as the `y` of the i-th graph
sample. -/
noncomputable def dataSet_targets (parse : String → Option Mol) (allowed : List String)
    (smiles : List String) (target : List ℝ) : List ℝ :=
  standardize ((filter_smiles parse allowed smiles target).2)

theorem pyIndex_get? {α : Type} [DecidableEq α] {l : List α} {a : α} (h : a ∈ l) :
    l.get? (pyIndex l a) = some a := by
  induction l with
  | nil => cases h
  | cons b t ih =>
    by_cases hba : b = a
    · subst hba
      simp only [pyIndex, if_pos rfl]
      rfl
    · rcases List.mem_cons.mp h with h1 | h2
      · exact absurd h1.symm hba
      · simp only [pyIndex, if_neg hba]
        exact ih h2

theorem pyIndex_of_get? {α : Type} [DecidableEq α] :
    ∀ {l : List α} {i : ℕ} {a : α}, l.Nodup → l.get? i = some a → pyIndex l a = i := by
  intro l
  induction l with
  | nil =>
    intro i a _ h
    cases i <;> exact Option.noConfusion h
  | cons b t ih =>
    intro i a hnd h
    cases i with
    | zero =>
      have hba : b = a := Option.some.inj h
      simp [pyIndex, hba]
    | succ j =>
      have h2 : t.get? j = some a := h
      have hmem : a ∈ t := List.get?_mem h2
      have hba : ¬ b = a := by
        intro hba
        exact (List.nodup_cons.mp hnd).1 (hba ▸ hmem)
      simp only [pyIndex, if_neg hba]
      exact congrArg (fun k => k + 1) (ih (List.nodup_cons.mp hnd).2 h2)

theorem mem_indices_to_drop_iff (parse : String → Option Mol) (allowed : List String)
    {smiles : List String} {i : ℕ} {s : String}
    (hnd : smiles.Nodup) (hi : smiles.get? i = some s) :
    i ∈ indices_to_drop parse allowed smiles ↔ smilesRejected parse allowed s = true := by
  constructor
  · intro hmem
    rcases List.mem_map.mp hmem with ⟨s2, hs2, hidx⟩
    rcases List.mem_filter.mp hs2 with ⟨hs2mem, hs2rej⟩
    have hget : smiles.get? i = some s2 := hidx ▸ pyIndex_get? hs2mem
    have : s2 = s := by
      have := hget.symm.trans hi
      exact Option.some.inj this
    exact this ▸ hs2rej
  · intro hrej
    have hmem : s ∈ smiles := List.get?_mem hi
    refine List.mem_map.mpr ⟨s, List.mem_filter.mpr ⟨hmem, hrej⟩, ?_⟩
    exact pyIndex_of_get? hnd hi

theorem dropRowsAux_eq_filter {β : Type} (drop : List ℕ) (p : β → Bool) :
    ∀ (l : List β) (n : ℕ),
      (∀ i b, l.get? i = some b → ((n + i) ∈ drop ↔ p b = false)) →
      dropRowsAux drop n l = l.filter p := by
  intro l
  induction l with
  | nil => intro n _; rfl
  | cons r rs ih =>
    intro n h
    have h0 : n ∈ drop ↔ p r = false := by
      have := h 0 r rfl
      simpa using this
    have hrest : ∀ i b, rs.get? i = some b → ((n + 1 + i) ∈ drop ↔ p b = false) := by
      intro i b hb
      have := h (i + 1) b hb
      have harith : n + (i + 1) = n + 1 + i := by omega
      simpa [harith] using this
    by_cases hd : n ∈ drop
    · have hp : p r = false := h0.mp hd
      simp [dropRowsAux, hd, List.filter, hp, ih (n + 1) hrest]
    · have hp : p r = true := by
        cases hpr : p r with
        | false => exact absurd (h0.mpr hpr) hd
        | true => rfl
      simp [dropRowsAux, hd, List.filter, hp, ih (n + 1) hrest]

theorem zip_get?_fst {α β : Type} :
    ∀ (l : List α) (m : List β) (i : ℕ) (p : α × β),
      (l.zip m).get? i = some p → l.get? i = some p.1 := by
  intro l
  induction l with
  | nil =>
    intro m i p h
    cases i <;> exact Option.noConfusion h
  | cons a t ih =>
    intro m i p h
    cases m with
    | nil =>
      cases i <;> exact Option.noConfusion h
    | cons b s =>
      cases i with
      | zero =>
        have hp : (a, b) = p := Option.some.inj h
        show some a = some p.1
        rw [← hp]
      | succ j =>
        exact ih s j p h

/-- Claim C1 as stated is false: with duplicate SMILES strings, every
rejected occurrence contributes the index of the FIRST occurrence, so a
rejected string appearing twice has only its first copy dropped.  On
smiles = [Q, Q] (Q unparsable) with targets [0, 1] the code returns
([Q], [1]) while the claim demands ([], []). -/
theorem c1_counterexample :
    filter_smiles parseEx allowedDefault ["Q", "Q"] ([0, 1] : List ℤ) = (["Q"], [1]) ∧
    filter_smiles_claim parseEx allowedDefault ["Q", "Q"] ([0, 1] : List ℤ) = ([], []) := by
  constructor <;> rfl

/-- Claim C1, amended: when the input SMILES strings are pairwise
distinct, `filter_smiles` returns exactly the index-aligned subsequence
of (smiles, target) pairs whose entries parse, have at least two heavy
atoms and use only allowed atom symbols, in the original order. -/
theorem filter_smiles_eq_claim {α : Type} (parse : String → Option Mol)
    (allowed : List String) (smiles : List String) (target : List α)
    (hnd : smiles.Nodup) :
    filter_smiles parse allowed smiles target =
      filter_smiles_claim parse allowed smiles target := by
  unfold filter_smiles filter_smiles_claim
  have hkey : dropRowsAux (indices_to_drop parse allowed smiles) 0 (smiles.zip target) =
      (smiles.zip target).filter (fun p => !(smilesRejected parse allowed p.1)) := by
    apply dropRowsAux_eq_filter
    intro i b hb
    have hfst : smiles.get? i = some b.1 := zip_get?_fst smiles target i b hb
    have hiff := mem_indices_to_drop_iff parse allowed hnd hfst
    simpa using hiff
  simp only [hkey]

/-- Witness for the amended claim C1: a concrete duplicate-free input on
which the equality is applied; the rejected entries O (one heavy atom),
C[Po] (disallowed atom) and Q (unparsable) are dropped and the valid
entries CC and CO survive with their targets. -/
theorem filter_smiles_eq_claim_witness :
    filter_smiles parseEx allowedDefault ["CC", "O", "C[Po]", "Q", "CO"]
        ([0, 1, 2, 3, 4] : List ℤ) =
      filter_smiles_claim parseEx allowedDefault ["CC", "O", "C[Po]", "Q", "CO"]
        ([0, 1, 2, 3, 4] : List ℤ) :=
  filter_smiles_eq_claim parseEx allowedDefault _ _ (by decide)

/-- Claim C4: the custom splitting strategy never returns the three
label-selected subsets of the dataset.  With data [10, 20, 30] and
labels [0, 1, 2] the claim demands the partition ([10], [20], [30]),
but evaluating the length check dereferences the unbound name `self`
and the call dies with a NameError before anything is returned. -/
theorem c4_custom_split_counterexample :
    split_data (fun _ _ _ => (([] : List ℤ), ([] : List ℤ), ([] : List ℤ)))
        [10, 20, 30] "custom" [8/10, 1/10, 1/10] (some [0, 1, 2]) =
      Except.error (PyError.nameError "self") ∧
    (selectByLabel ([10, 20, 30] : List ℤ) [0, 1, 2] 0,
     selectByLabel ([10, 20, 30] : List ℤ) [0, 1, 2] 1,
     selectByLabel ([10, 20, 30] : List ℤ) [0, 1, 2] 2) = ([10], [20], [30]) := by
  exact ⟨rfl, rfl⟩

/-- Claim C5: the acceptance behaviour of the custom split.  An absent
custom_split does fail with the documented assertion error, but a
present one of matching length 3 (claimed to succeed) and a present one
of mismatched length 2 (claimed to fail the assertion) both raise a
NameError from the unbound `self` instead. -/
theorem c5_custom_split_validation :
    split_data (fun _ _ _ => (([] : List ℤ), ([] : List ℤ), ([] : List ℤ)))
        [10, 20, 30] "custom" [8/10, 1/10, 1/10] none =
      Except.error (PyError.assertionError
        "The custom split has to match the length of the filtered dataset.") ∧
    split_data (fun _ _ _ => (([] : List ℤ), ([] : List ℤ), ([] : List ℤ)))
        [10, 20, 30] "custom" [8/10, 1/10, 1/10] (some [2, 0, 1]) =
      Except.error (PyError.nameError "self") ∧
    split_data (fun _ _ _ => (([] : List ℤ), ([] : List ℤ), ([] : List ℤ)))
        [10, 20, 30] "custom" [8/10, 1/10, 1/10] (some [0, 1]) =
      Except.error (PyError.nameError "self") := by
  exact ⟨rfl, rfl, rfl⟩

/-- Claim C6: the fraction check of `MakeGraphDataSet.__init__` only
tests the truthiness of `np.sum(split_frac)`, so the fractions
[0.5, 0.3, 0.3] — which sum to 1.1, not 1.0 — are accepted even though
the claim (and the assertion message itself) say they must be
rejected. -/
theorem c6_split_frac_check_counterexample :
    makeGraphDataSet_init (fun _ _ _ => (([] : List ℤ), ([] : List ℤ), ([] : List ℤ)))
        ([7] : List ℤ) none (some [5/10, 3/10, 3/10]) none false =
      Except.ok ⟨[7], "random", [5/10, 3/10, 3/10], none, none, none, none⟩ ∧
    ([5/10, 3/10, 3/10] : List ℚ).sum ≠ 1 := by
  constructor
  · have h : ([5/10, 3/10, 3/10] : List ℚ).sum ≠ 0 := by norm_num
    simp only [makeGraphDataSet_init, Option.getD]
    rw [if_neg h]
    rfl
  · norm_num

/-- Claim C8: the `mre` metric.  On predictions [0, 0] and targets
[1, 1] the code computes Σ (y - f) / y * 100 = 200, while the claimed
(and docstring) Mean Relative Error is 100: the code never divides by
N. -/
theorem c8_mre_counterexample :
    pred_metric_mre [0, 0] [1, 1] = 200 ∧
    mre_claim [0, 0] [1, 1] = 100 ∧
    pred_metric_mre [0, 0] [1, 1] ≠ mre_claim [0, 0] [1, 1] := by
  refine ⟨?_, ?_, ?_⟩ <;> norm_num [pred_metric_mre, mre_claim, List.zip]

/-- Claim C10: for a name-based strategy, `MakeGraphDataSet.__init__`
binds the (train, validation, test) triple returned by the splitter to
the attributes `train`, `test`, `val` in that positional order, so the
attribute named `test` receives the validation component and the
attribute named `val` receives the test component. -/
theorem c10_attribute_binding {α : Type}
    (ext : String → List α → List ℚ → List α × List α × List α)
    (data : List α) (st : String) (sf : List ℚ) (cs : Option (List ℤ))
    (hst : st ∈ split_func_keys) (hsf : sf.sum ≠ 0) :
    makeGraphDataSet_init ext data (some st) (some sf) cs true =
      Except.ok ⟨data, st, sf, cs,
        some (ext st data sf).1, some (ext st data sf).2.1, some (ext st data sf).2.2⟩ := by
  have hcustom : st ≠ "custom" := by
    intro h
    rw [h] at hst
    exact absurd hst (by decide)
  simp only [makeGraphDataSet_init, Option.getD, split_data]
  rw [if_neg hsf, if_neg hcustom, if_pos hst]
  simp only [if_true]

/-- Witness for claim C10: the random strategy on a small dataset.  The
external splitter returns (dataset, [], []) so the `train` attribute
receives the whole dataset and `test`/`val` receive the remaining two
components in positional order. -/
theorem c10_attribute_binding_witness :
    makeGraphDataSet_init (fun _ d _ => (d, ([] : List ℤ), ([] : List ℤ)))
        ([1, 2, 3] : List ℤ) (some "random") (some [1, 0, 0]) none true =
      Except.ok ⟨[1, 2, 3], "random", [1, 0, 0], none, some [1, 2, 3], some [], some []⟩ :=
  c10_attribute_binding (fun _ d _ => (d, [], [])) [1, 2, 3] "random" [1, 0, 0] none
    (by decide) (by norm_num)

theorem bestBefore_succ (valB : ℕ → List ℚ) (i : ℕ) :
    bestBefore valB (i + 1) =
      if improves (bestBefore valB i) (listMean (valB i)) then some (listMean (valB i))
      else bestBefore valB i := by
  cases hb : bestBefore valB i with
  | none => simp [bestBefore, hb, improves]
  | some b =>
    by_cases h : listMean (valB i) < b
    · simp [bestBefore, hb, improves, h, min_eq_right h.le]
    · simp [bestBefore, hb, improves, h, min_eq_left (not_lt.mp h)]

theorem counterAfter_eq (valB : ℕ → List ℚ) (k : ℕ) :
    counterAfter valB k =
      if improves (bestBefore valB k) (listMean (valB k)) then 0
      else counterBefore valB k + 1 := by
  cases k <;> rfl

theorem firstStop_mono (valB : ℕ → List ℚ) (p : ℕ) :
    ∀ (m n k : ℕ), firstStop valB p n = some k → firstStop valB p (n + m) = some k := by
  intro m
  induction m with
  | zero => intro n k h; exact h
  | succ j ih =>
    intro n k h
    have hj := ih n k h
    rw [show n + (j + 1) = (n + j) + 1 by omega]
    simp [firstStop, hj]

theorem firstStop_lt (valB : ℕ → List ℚ) (p : ℕ) :
    ∀ (n k : ℕ), firstStop valB p n = some k → k < n := by
  intro n
  induction n with
  | zero => intro k h; exact Option.noConfusion h
  | succ m ih =>
    intro k h
    simp only [firstStop] at h
    cases hm : firstStop valB p m with
    | some k2 =>
      rw [hm] at h
      have hk : k2 = k := Option.some.inj h
      have := ih k2 hm
      omega
    | none =>
      rw [hm] at h
      by_cases hc : counterAfter valB m = p
      · rw [if_pos hc] at h
        have hk : m = k := Option.some.inj h
        omega
      · rw [if_neg hc] at h
        exact Option.noConfusion h

theorem specNumEpochs_le (valB : ℕ → List ℚ) (es : Bool) (p epochs : ℕ) :
    specNumEpochs valB es p epochs ≤ epochs := by
  unfold specNumEpochs
  by_cases hes : es = true
  · rw [if_pos hes]
    cases hfs : firstStop valB p epochs with
    | none => exact le_refl _
    | some k =>
      have hlt := firstStop_lt valB p epochs k hfs
      show k + 1 ≤ epochs
      omega
  · rw [if_neg hes]

theorem train_model_loop_spec (trainB valB : ℕ → List ℚ) (es : Bool) (p : ℕ) :
    ∀ (r i : ℕ) (best : Option ℚ) (counter : ℕ) (tl vl : List ℚ),
      best = bestBefore valB i →
      counter = counterBefore valB i →
      tl = (List.range i).map (fun k => listMean (trainB k)) →
      vl = (List.range i).map (fun k => listMean (valB k)) →
      (es = true → firstStop valB p i = none) →
      train_model_loop trainB valB es p r i best counter tl vl =
        ((List.range (specNumEpochs valB es p (i + r))).map (fun k => listMean (trainB k)),
         (List.range (specNumEpochs valB es p (i + r))).map (fun k => listMean (valB k))) := by
  intro r
  induction r with
  | zero =>
    intro i best counter tl vl hbest hcounter htl hvl hinv
    have hN : specNumEpochs valB es p (i + 0) = i := by
      unfold specNumEpochs
      by_cases hes : es = true
      · rw [if_pos hes]
        rw [show i + 0 = i by omega, hinv hes]
      · rw [if_neg hes]
        omega
    rw [train_model_loop, hN, htl, hvl]
  | succ r ih =>
    intro i best counter tl vl hbest hcounter htl hvl hinv
    subst hbest hcounter
    simp only [train_model_loop]
    rw [← bestBefore_succ valB i, ← counterAfter_eq valB i]
    by_cases hstop : counterAfter valB i = p ∧ es = true
    · rw [if_pos hstop]
      have hes := hstop.2
      have hfs0 := hinv hes
      have hfs1 : firstStop valB p (i + 1) = some i := by
        simp [firstStop, hfs0, hstop.1]
      have hfsN : firstStop valB p (i + (r + 1)) = some i := by
        rw [show i + (r + 1) = (i + 1) + r by omega]
        exact firstStop_mono valB p r (i + 1) i hfs1
      have hN : specNumEpochs valB es p (i + (r + 1)) = i + 1 := by
        unfold specNumEpochs
        rw [if_pos hes, hfsN]
      rw [hN, htl, hvl]
      simp [List.range_succ]
    · rw [if_neg hstop]
      have htl2 : tl ++ [listMean (trainB i)] =
          (List.range (i + 1)).map (fun k => listMean (trainB k)) := by
        rw [htl]
        simp [List.range_succ]
      have hvl2 : vl ++ [listMean (valB i)] =
          (List.range (i + 1)).map (fun k => listMean (valB k)) := by
        rw [hvl]
        simp [List.range_succ]
      have hinv2 : es = true → firstStop valB p (i + 1) = none := by
        intro hes
        have h1 := hinv hes
        have h2 : ¬ counterAfter valB i = p := fun hc => hstop ⟨hc, hes⟩
        simp [firstStop, h1, h2]
      rw [show i + (r + 1) = (i + 1) + r by omega]
      exact ih (i + 1) _ _ _ _ rfl rfl htl2 hvl2 hinv2

/-- Claim C2: `train_model` executes `specNumEpochs` ≤ `epochs` epochs;
each executed epoch contributes exactly one mean mini-batch training
loss and one mean mini-batch validation loss (so the two returned lists
are index-aligned over the executed epochs); the best validation loss
and the consecutive-non-improvement counter evolve as `bestBefore` and
`counterAfter` describe (reset on strict improvement, increment
otherwise); and with early stopping on, the run ends at the end of the
first epoch at which the counter equals `patience` (otherwise all
`epochs` epochs run). -/
theorem train_model_matches_claim (trainB valB : ℕ → List ℚ) (epochs patience : ℕ)
    (es : Bool) :
    train_model trainB valB epochs patience es =
      ((List.range (specNumEpochs valB es patience epochs)).map (fun k => listMean (trainB k)),
       (List.range (specNumEpochs valB es patience epochs)).map (fun k => listMean (valB k))) ∧
    specNumEpochs valB es patience epochs ≤ epochs := by
  constructor
  · have h := train_model_loop_spec trainB valB es patience epochs 0 none 0 [] []
      rfl rfl rfl rfl (fun _ => rfl)
    rw [show (0 : ℕ) + epochs = epochs by omega] at h
    exact h
  · exact specNumEpochs_le valB es patience epochs

theorem safe_sinh_eq_claim (x : ℝ) : safe_sinh x = claimSinh x := by
  unfold safe_sinh claimSinh
  by_cases h : |x| ≤ 20
  · rw [if_pos h, if_neg (not_lt.mpr h)]
  · rw [if_neg h, if_pos (not_le.mp h)]

theorem safe_cosh_eq_claim (x : ℝ) : safe_cosh x = claimCosh x := by
  unfold safe_cosh claimCosh
  by_cases h : |x| ≤ 20
  · rw [if_pos h, if_neg (not_lt.mpr h)]
  · rw [if_neg h, if_pos (not_le.mp h)]

/-- Claim C3: `CpLayer.forward` computes exactly the claimed
closed-form expression with the clamped arguments and overflow-safe
hyperbolic functions, and `GroupGAT_Ensemble.forward` feeds its five
sub-model outputs A, B, C, D, E, in that order, together with the shared
temperature input, into the five coefficient slots of that formula. -/
theorem cpLayer_and_ensemble_match_claim {γ : Type}
    (mA mB mC mD mE globalT : γ → ℝ) (d : γ) (B C D E F T : ℝ) :
    cpLayer_forward B C D E F T = cpClaimFormula B C D E F T ∧
    groupGAT_Ensemble_forward mA mB mC mD mE globalT d =
      cpClaimFormula (mA d) (mB d) (mC d) (mD d) (mE d) (globalT d) := by
  have hmain : ∀ b c dd e f t : ℝ, cpLayer_forward b c dd e f t = cpClaimFormula b c dd e f t := by
    intro b c dd e f t
    unfold cpLayer_forward cpClaimFormula sinh_term cosh_term d_over_t shiftedT cpEpsilon
    rw [safe_sinh_eq_claim, safe_cosh_eq_claim]
  exact ⟨hmain B C D E F T, hmain (mA d) (mB d) (mC d) (mD d) (mE d) (globalT d)⟩

/-- Claim C7 as stated is false: the epsilon offset does NOT make the
shifted temperature nonzero for every real input — at T = -1e-7 the
denominator T + 1e-7 is exactly zero, so the division D / (T + eps) is a
division by zero. -/
theorem c7_counterexample :
    shiftedT (-(1e-7 : ℝ)) = 0 ∧
    ¬ (∀ D F T : ℝ, shiftedT T ≠ 0 ∧ sinh_term D T ≠ 0 ∧ cosh_term F T ≠ 0) := by
  have h : shiftedT (-(1e-7 : ℝ)) = 0 := by
    unfold shiftedT cpEpsilon
    norm_num
  refine ⟨h, fun hall => (hall 0 0 (-(1e-7 : ℝ))).1 h⟩

theorem safe_cosh_pos (x : ℝ) : 0 < safe_cosh x := by
  unfold safe_cosh
  by_cases h : |x| ≤ 20
  · rw [if_pos h]
    exact Real.cosh_pos x
  · rw [if_neg h]
    positivity

/-- Claim C7, amended: for a nonnegative temperature input the shifted
temperature T + 1e-7 is strictly positive; the cosh denominator
cosh_term is strictly positive for all inputs; and the sinh denominator
sinh_term is strictly positive whenever additionally the numerator
coefficient D is nonnegative (for negative D with T + 1e-7 small the
sinh denominator can vanish, and at T = -1e-7 the shifted temperature
itself vanishes, so the unconditional claim fails). -/
theorem cp_denominators_amended (D F T : ℝ) (hT : 0 ≤ T) (hD : 0 ≤ D) :
    0 < shiftedT T ∧ 0 < sinh_term D T ∧ 0 < cosh_term F T := by
  have heps : (0 : ℝ) < cpEpsilon := by
    unfold cpEpsilon
    norm_num
  have hsT : 0 < shiftedT T := by
    unfold shiftedT
    linarith
  have hu0 : 0 ≤ d_over_t D T := by
    unfold d_over_t pyClamp
    have hdiv : 0 ≤ D / shiftedT T := div_nonneg hD hsT.le
    have hmax : 0 ≤ max (D / shiftedT T) (-20) := le_trans hdiv (le_max_left _ _)
    exact le_min hmax (by norm_num)
  have hu20 : d_over_t D T ≤ 20 := min_le_right _ _
  have habs : |d_over_t D T| ≤ 20 := abs_le.mpr ⟨by linarith, hu20⟩
  refine ⟨hsT, ?_, ?_⟩
  · unfold sinh_term safe_sinh
    rw [if_pos habs]
    have hs : 0 ≤ Real.sinh (d_over_t D T) := Real.sinh_nonneg_iff.mpr hu0
    linarith
  · unfold cosh_term
    have := safe_cosh_pos (d_over_t F T)
    linarith

/-- Witness for the amended claim C7 at T = 300, D = 1, F = -5. -/
theorem cp_denominators_amended_witness :
    0 < shiftedT 300 ∧ 0 < sinh_term 1 300 ∧ 0 < cosh_term (-5) 300 :=
  cp_denominators_amended 1 (-5) 300 (by norm_num) (by norm_num)

theorem sum_map_sub_div (l : List ℝ) (μ σ : ℝ) :
    (l.map (fun t => (t - μ) / σ)).sum = (l.sum - l.length * μ) / σ := by
  induction l with
  | nil => simp
  | cons a t ih =>
    simp only [List.map_cons, List.sum_cons, ih, List.length_cons]
    rw [div_add_div_same]
    congr 1
    push_cast
    ring

theorem sum_map_sq_div (l : List ℝ) (μ σ : ℝ) :
    (l.map (fun t => ((t - μ) / σ) ^ 2)).sum = (l.map (fun t => (t - μ) ^ 2)).sum / σ ^ 2 := by
  induction l with
  | nil => simp
  | cons a t ih =>
    simp only [List.map_cons, List.sum_cons, ih]
    rw [div_pow, div_add_div_same]

theorem sum_sq_nonneg (l : List ℝ) (c : ℝ) : 0 ≤ (l.map (fun x => (x - c) ^ 2)).sum := by
  apply List.sum_nonneg
  intro x hx
  rcases List.mem_map.mp hx with ⟨y, _, rfl⟩
  exact sq_nonneg _

theorem sum_sq_eq_zero_forall {l : List ℝ} {c : ℝ}
    (h : (l.map (fun x => (x - c) ^ 2)).sum = 0) : ∀ x ∈ l, x = c := by
  induction l with
  | nil => intro x hx; cases hx
  | cons a t ih =>
    simp only [List.map_cons, List.sum_cons] at h
    have h1 : (0 : ℝ) ≤ (a - c) ^ 2 := sq_nonneg _
    have h2 : 0 ≤ (t.map (fun x => (x - c) ^ 2)).sum := sum_sq_nonneg t c
    have hz := (add_eq_zero_iff_of_nonneg h1 h2).mp h
    intro x hx
    rcases List.mem_cons.mp hx with rfl | hxt
    · have hx0 : x - c = 0 := by
        have := hz.1
        nlinarith [sq_nonneg (x - c)]
      linarith
    · exact ih hz.2 x hxt

theorem length_cast_ne_zero_of_two_mem {l : List ℝ}
    (h : ∃ a ∈ l, ∃ b ∈ l, a ≠ b) : (l.length : ℝ) ≠ 0 := by
  rcases h with ⟨a, ha, _⟩
  have hpos : 0 < l.length := List.length_pos.mpr (List.ne_nil_of_mem ha)
  exact_mod_cast Nat.pos_iff_ne_zero.mp hpos

theorem listMeanR_standardize (l : List ℝ) (hn : (l.length : ℝ) ≠ 0) :
    listMeanR (standardize l) = 0 := by
  have hsum : (standardize l).sum = 0 := by
    unfold standardize
    rw [sum_map_sub_div]
    have hz : l.sum - (l.length : ℝ) * listMeanR l = 0 := by
      unfold listMeanR
      field_simp
    rw [hz, zero_div]
  unfold listMeanR
  rw [hsum, zero_div]

theorem listVarR_nonneg (l : List ℝ) : 0 ≤ listVarR l := by
  unfold listVarR
  exact div_nonneg (sum_sq_nonneg l (listMeanR l)) (Nat.cast_nonneg _)

theorem listVarR_ne_zero (l : List ℝ) (h : ∃ a ∈ l, ∃ b ∈ l, a ≠ b) :
    listVarR l ≠ 0 := by
  have hn := length_cast_ne_zero_of_two_mem h
  intro hv
  unfold listVarR at hv
  rcases div_eq_zero_iff.mp hv with hS | hn2
  · have hall := sum_sq_eq_zero_forall hS
    rcases h with ⟨a, ha, b, hb, hab⟩
    exact hab ((hall a ha).trans (hall b hb).symm)
  · exact hn hn2

theorem listVarR_standardize (l : List ℝ) (h : ∃ a ∈ l, ∃ b ∈ l, a ≠ b) :
    listVarR (standardize l) = 1 := by
  have hn := length_cast_ne_zero_of_two_mem h
  have hv0 := listVarR_nonneg l
  have hvne := listVarR_ne_zero l h
  have hmean0 := listMeanR_standardize l hn
  unfold listVarR
  rw [hmean0]
  simp only [sub_zero, List.length_map]
  unfold standardize
  rw [List.map_map]
  simp only [Function.comp_def]
  rw [sum_map_sq_div]
  rw [show listStdR l ^ 2 = listVarR l from Real.sq_sqrt hv0]
  have hS : (l.map (fun t => (t - listMeanR l) ^ 2)).sum = listVarR l * (l.length : ℝ) := by
    unfold listVarR
    field_simp
  rw [hS]
  rw [mul_comm, mul_div_assoc, div_self hvne, mul_one, List.length_map, div_self hn]

/-- Claim C9: for a DataSet built from smiles and targets whose filtered
targets are not all equal, the targets carried by the graph samples are
the filtered targets standardized — each stored target is the filtered
target minus the mean of the filtered targets divided by their
(population) standard deviation — and the stored list indeed has zero
mean and unit variance. -/
theorem dataSet_targets_standardized (parse : String → Option Mol) (allowed : List String)
    (smiles : List String) (target : List ℝ)
    (h : ∃ a ∈ (filter_smiles parse allowed smiles target).2,
         ∃ b ∈ (filter_smiles parse allowed smiles target).2, a ≠ b) :
    dataSet_targets parse allowed smiles target =
      ((filter_smiles parse allowed smiles target).2).map
        (fun t => (t - listMeanR ((filter_smiles parse allowed smiles target).2)) /
          listStdR ((filter_smiles parse allowed smiles target).2)) ∧
    listMeanR (dataSet_targets parse allowed smiles target) = 0 ∧
    listVarR (dataSet_targets parse allowed smiles target) = 1 := by
  refine ⟨rfl, ?_, ?_⟩
  · exact listMeanR_standardize _ (length_cast_ne_zero_of_two_mem h)
  · exact listVarR_standardize _ h

/-- Witness for claim C9: smiles [CC, CO] with targets [0, 2] survive
filtering unchanged; their standardization (mean 1, std 1) is [-1, 1],
which has zero mean and unit variance. -/
theorem dataSet_targets_standardized_witness :
    listMeanR (dataSet_targets parseEx allowedDefault ["CC", "CO"] [0, 2]) = 0 ∧
    listVarR (dataSet_targets parseEx allowedDefault ["CC", "CO"] [0, 2]) = 1 := by
  have hft : (filter_smiles parseEx allowedDefault ["CC", "CO"] ([0, 2] : List ℝ)).2
      = [0, 2] := rfl
  have h := dataSet_targets_standardized parseEx allowedDefault ["CC", "CO"]
    ([0, 2] : List ℝ)
    (by rw [hft]; exact ⟨0, by simp, 2, by simp, by norm_num⟩)
  exact ⟨h.2.1, h.2.2⟩
